import Mathlib

/-!
# Verification of the two-peer CRDT sync engine

Shallow embedding of `src/crdt/sync-engine.ts` and the counter part of
`src/crdt/peer.ts`.

The external CRDT document engine (Yjs) is out of scope for the repository
and is modelled through the contract it exposes to the engine: a document is
a grow-only set of operations; applying an update is set union (idempotent
and commutative); a state vector summarises which operations the document
has seen; encoding the state as an update relative to a remote state vector
yields exactly the operations the remote is missing; an encoded update
carries a fixed 2-byte header even when empty, and every operation
contributes at least one byte.
-/

/-- An operation of the CRDT document: an author id, the author's clock
value, and the size in bytes of the operation's encoding beyond one byte. -/
structure Op where
  author : Nat
  clock : Nat
  size : Nat
deriving DecidableEq, Repr

/-- A document / delta is a set of operations; merging is union. -/
abbrev Doc := Finset Op

/-- Byte length of an encoded update: a 2-byte header plus at least one
byte per operation. An empty update is exactly the header. -/
def encodedSize (d : Doc) : Nat :=
  2 + d.sum (fun op => 1 + op.size)

/-- An empty Yjs state-as-update contains only the state vector header
(`EMPTY_UPDATE_THRESHOLD` in `sync-engine.ts`). -/
def EMPTY_UPDATE_THRESHOLD : Nat := 2

/-- The kind tag of a sync event (`SyncEvent.type`). -/
inductive EventType
  | live
  | queued
  | reconnect
deriving DecidableEq, Repr

/-- A sync event: source peer name, destination peer name, payload size in
bytes and a kind tag. The wall-clock `timestamp` field of the source is
real time and is not modelled; no claim refers to it. -/
structure SyncEvent where
  src : String
  dst : String
  bytes : Nat
  etype : EventType
deriving DecidableEq, Repr

/-- The two peer slots of the engine. -/
inductive Side
  | A
  | B
deriving DecidableEq, Repr

/-- The other slot. -/
def Side.other : Side → Side
  | .A => .B
  | .B => .A

/-- The engine state: the two managed replicas' names and documents, the
online flags, the two direction queues, the registered sync-event observers
(identified by numeric ids standing for callback identity), and whether the
engine's update handler is still subscribed on each replica's document. -/
structure EngineState where
  nameA : String
  nameB : String
  docA : Doc
  docB : Doc
  peerAOnline : Bool
  peerBOnline : Bool
  queueForA : List Doc
  queueForB : List Doc
  listeners : List Nat
  subA : Bool
  subB : Bool
deriving DecidableEq

/-- A fresh engine over two empty replicas: both online, empty queues, no
observers, handlers subscribed (the constructor of `SyncEngine`). -/
def initState (nA nB : String) : EngineState :=
  ⟨nA, nB, ∅, ∅, true, true, [], [], [], true, true⟩

/-- The name of the replica in a slot. -/
def EngineState.peerName (s : EngineState) : Side → String
  | .A => s.nameA
  | .B => s.nameB

/-- The document of the replica in a slot. -/
def EngineState.doc (s : EngineState) : Side → Doc
  | .A => s.docA
  | .B => s.docB

/-- The queue addressed to a slot. -/
def EngineState.queueFor (s : EngineState) : Side → List Doc
  | .A => s.queueForA
  | .B => s.queueForB

/-- `to.applyUpdate(update, 'remote')`: merge an update into the document of
the destination slot. The destination's own change notification carries the
`remote` origin marker and is discarded by the engine's handler, so it has
no further effect. -/
def EngineState.applyRemote (s : EngineState) (dst : Side) (update : Doc) : EngineState :=
  match dst with
  | .A => { s with docA := s.docA ∪ update }
  | .B => { s with docB := s.docB ∪ update }

/-- `queue.push(update)` on the queue addressed to the destination slot. -/
def EngineState.enqueue (s : EngineState) (dst : Side) (update : Doc) : EngineState :=
  match dst with
  | .A => { s with queueForA := s.queueForA ++ [update] }
  | .B => { s with queueForB := s.queueForB ++ [update] }

/-- `SyncEngine.relay`: forward an update from one peer to the other, or
queue it when the link is not fully online. Returns the new state and the
list of emitted events. -/
def relay (s : EngineState) (update : Doc) (src dst : Side) (online : Bool) :
    EngineState × List SyncEvent :=
  if online then
    (s.applyRemote dst update,
      [⟨s.peerName src, s.peerName dst, encodedSize update, .live⟩])
  else
    (s.enqueue dst update,
      [⟨s.peerName src, s.peerName dst, encodedSize update, .queued⟩])

/-- The engine's update handler for the replica in slot `src`
(`handleAUpdate` / `handleBUpdate`): a notification whose origin marker is
the `remote` sentinel is discarded; any other notification is relayed to
the other slot, with the online flag read at notification time. -/
def handleUpdate (s : EngineState) (src : Side) (update : Doc)
    (origin : Option String) : EngineState × List SyncEvent :=
  if origin = some "remote" then (s, [])
  else relay s update src src.other (s.peerAOnline && s.peerBOnline)

/-- `SyncEngine.isPeerOnline`: the flag of the named slot, or an error for
an unknown peer name. -/
def isPeerOnline (s : EngineState) (peerName : String) : Except String Bool :=
  if peerName = s.nameA then .ok s.peerAOnline
  else if peerName = s.nameB then .ok s.peerBOnline
  else .error ("Unknown peer: " ++ peerName)

/-- The flag-setting part of `SyncEngine.setOnline`: `none` when the name
matches neither replica (the thrown error). -/
def setFlag (s : EngineState) (peerName : String) (online : Bool) :
    Option EngineState :=
  if peerName = s.nameA then some { s with peerAOnline := online }
  else if peerName = s.nameB then some { s with peerBOnline := online }
  else none

/-- `SyncEngine.reconcile`: state-vector based reconciliation. Each side's
state vector is its op set; the update encoded for a destination is exactly
the operations it is missing. A direction's update is applied and reported
only when its encoded size exceeds `EMPTY_UPDATE_THRESHOLD`; both queues
are cleared unconditionally afterwards. -/
def reconcile (s : EngineState) : EngineState × List SyncEvent :=
  let updateForA := s.docB \ s.docA
  let updateForB := s.docA \ s.docB
  let s1 :=
    if encodedSize updateForA > EMPTY_UPDATE_THRESHOLD then
      s.applyRemote .A updateForA
    else s
  let s2 :=
    if encodedSize updateForB > EMPTY_UPDATE_THRESHOLD then
      s1.applyRemote .B updateForB
    else s1
  let evs :=
    (if encodedSize updateForA > EMPTY_UPDATE_THRESHOLD then
      [(⟨s.nameB, s.nameA, encodedSize updateForA, .reconnect⟩ : SyncEvent)]
    else []) ++
    (if encodedSize updateForB > EMPTY_UPDATE_THRESHOLD then
      [(⟨s.nameA, s.nameB, encodedSize updateForB, .reconnect⟩ : SyncEvent)]
    else [])
  ({ s2 with queueForA := [], queueForB := [] }, evs)

/-- `SyncEngine.setOnline`: set the named slot's flag (error on an unknown
name); then, exactly when the requested value is online and both flags are
now online, run reconciliation. The third component records whether
`reconcile` was invoked. -/
def setOnline (s : EngineState) (peerName : String) (online : Bool) :
    Except String (EngineState × List SyncEvent × Bool) :=
  match setFlag s peerName online with
  | none => .error ("Unknown peer: " ++ peerName)
  | some s1 =>
    if online && s1.peerAOnline && s1.peerBOnline then
      .ok ((reconcile s1).1, (reconcile s1).2, true)
    else
      .ok (s1, [], false)

/-- `SyncEngine.onSyncEvent`: append an observer. -/
def onSyncEvent (s : EngineState) (cb : Nat) : EngineState :=
  { s with listeners := s.listeners ++ [cb] }

/-- `SyncEngine.offSyncEvent`: remove every registration of the observer. -/
def offSyncEvent (s : EngineState) (cb : Nat) : EngineState :=
  { s with listeners := s.listeners.filter (fun l => l ≠ cb) }

/-- `SyncEngine.destroy`: unsubscribe the engine's handler from both
replicas' documents and clear the observer list. Total: it signals no
error. -/
def destroy (s : EngineState) : EngineState :=
  { s with subA := false, subB := false, listeners := [] }

/-- A local mutation of the replica in slot `side`: the document engine
adds the operation and fires the change notification (delta = the new
operation, origin marker absent) into the engine's handler, when that
handler is still subscribed. -/
def localEdit (s : EngineState) (side : Side) (op : Op) :
    EngineState × List SyncEvent :=
  match side with
  | .A =>
    let s1 := { s with docA := s.docA ∪ {op} }
    if s.subA then handleUpdate s1 .A {op} none else (s1, [])
  | .B =>
    let s1 := { s with docB := s.docB ∪ {op} }
    if s.subB then handleUpdate s1 .B {op} none else (s1, [])

/-- A command issued to the system: a local edit on one replica, a
`setOnline` call, observer registration or removal, or `destroy`. -/
inductive Cmd
  | edit : Side → Op → Cmd
  | online : String → Bool → Cmd
  | subscribeEvt : Nat → Cmd
  | unsubscribeEvt : Nat → Cmd
  | teardown : Cmd
deriving DecidableEq, Repr

/-- `emit` delivers an event to every registered observer: the deliveries
are the pairs (observer id, event), in registration order. -/
def deliver (ls : List Nat) (evs : List SyncEvent) : List (Nat × SyncEvent) :=
  evs.flatMap (fun e => ls.map (fun id => (id, e)))

/-- One command against the engine: the resulting state and the deliveries
made to observers. A `setOnline` with an unknown name throws: the engine
state is unchanged and nothing is delivered. -/
def step (s : EngineState) : Cmd → EngineState × List (Nat × SyncEvent)
  | .edit side op =>
    let (s1, evs) := localEdit s side op
    (s1, deliver s.listeners evs)
  | .online n b =>
    match setOnline s n b with
    | .ok (s1, evs, _) => (s1, deliver s.listeners evs)
    | .error _ => (s, [])
  | .subscribeEvt id => (onSyncEvent s id, [])
  | .unsubscribeEvt id => (offSyncEvent s id, [])
  | .teardown => (destroy s, [])

/-- Run a command list, collecting all deliveries. -/
def runD : EngineState → List Cmd → EngineState × List (Nat × SyncEvent)
  | s, [] => (s, [])
  | s, c :: cs =>
    ((runD (step s c).1 cs).1, (step s c).2 ++ (runD (step s c).1 cs).2)

/-- Run a command list, keeping the final state. -/
def run (s : EngineState) (cs : List Cmd) : EngineState :=
  (runD s cs).1

/-! ## The counter part of `CRDTPeer` (`src/crdt/peer.ts`)

The `counters` view is a map from peer name to number with last-writer-wins
keys; locally it behaves as a finite map. It is modelled as an association
list without duplicate keys, with Yjs `Y.Map` get/set/forEach semantics. -/

/-- `Y.Map.get`: the value at a key, or `none` when the key was never set.
Total — reading an absent key is not an error. -/
def mapGet (cs : List (String × Int)) (k : String) : Option Int :=
  (cs.find? (fun p => p.1 == k)).map Prod.snd

/-- `Y.Map.set`: bind a key to a value, replacing any previous binding. -/
def mapSet (cs : List (String × Int)) (k : String) (v : Int) :
    List (String × Int) :=
  (k, v) :: cs.filter (fun p => p.1 != k)

/-- The counter state of a `CRDTPeer`: its name and its `counters` map. -/
structure CRDTPeer where
  name : String
  counters : List (String × Int)
deriving DecidableEq, Repr

/-- `CRDTPeer.incrementCounter`: read this peer's own key (defaulting to 0)
and store the value plus one. -/
def CRDTPeer.incrementCounter (p : CRDTPeer) : CRDTPeer :=
  let current := (mapGet p.counters p.name).getD 0
  { p with counters := mapSet p.counters p.name (current + 1) }

/-- `CRDTPeer.decrementCounter`: read this peer's own key (defaulting to 0)
and store the value minus one. -/
def CRDTPeer.decrementCounter (p : CRDTPeer) : CRDTPeer :=
  let current := (mapGet p.counters p.name).getD 0
  { p with counters := mapSet p.counters p.name (current - 1) }

/-- `CRDTPeer.getCounterTotal`: start from 0 and add every value the
`forEach` traversal visits. -/
def CRDTPeer.getCounterTotal (p : CRDTPeer) : Int :=
  p.counters.foldl (fun total kv => total + kv.2) 0

/-- The read idiom `counters.get(k) ?? 0` used by the mutation helpers:
an absent key reads as 0. -/
def CRDTPeer.counterValue (p : CRDTPeer) (k : String) : Int :=
  (mapGet p.counters k).getD 0

/-- Whether a call returned normally rather than signalling an error. -/
def callOk {α : Type} : Except String α → Bool
  | .ok _ => true
  | .error _ => false

/-- Whether a `setOnline` call invoked `reconcile`. -/
def ranReconcile (r : Except String (EngineState × List SyncEvent × Bool)) : Bool :=
  match r with
  | .ok (_, _, ran) => ran
  | .error _ => false

/-- A concrete engine state for exercising reconciliation: replica B holds
one operation that replica A is missing. -/
def divergedPair : EngineState :=
  ⟨"A", "B", ∅, {⟨1, 0, 3⟩}, true, true, [], [], [], true, true⟩

/-- The engine state after pausing slot A of a fresh pair. -/
def pausedPair : EngineState :=
  ⟨"A", "B", ∅, ∅, false, true, [], [], [], true, true⟩

/-- Whether a command registers a new sync-event observer. -/
def isSubscribeCmd : Cmd → Bool
  | .subscribeEvt _ => true
  | _ => false

/-! ## Helper lemmas -/

/-- Folding addition of the second components equals the sum of the
mapped list. -/
lemma foldl_add_snd (l : List (String × Int)) :
    ∀ a : Int, l.foldl (fun t kv => t + kv.2) a = a + (l.map Prod.snd).sum := by
  induction l with
  | nil => intro a; simp
  | cons kv l ih => intro a; simp [ih, add_assoc]

/-- Setting a key makes it readable with the stored value. -/
lemma mapGet_mapSet_self (cs : List (String × Int)) (k : String) (v : Int) :
    mapGet (mapSet cs k v) k = some v := by
  unfold mapGet mapSet
  rw [List.find?_cons_of_pos _ (by simp)]
  rfl

/-- C8: for every replica state, `getCounterTotal` returns the sum of all
values present in the counters mapping, and returns 0 when the mapping is
empty. -/
theorem getCounterTotal_spec (p : CRDTPeer) :
    p.getCounterTotal = (p.counters.map Prod.snd).sum ∧
    ∀ n : String, CRDTPeer.getCounterTotal ⟨n, []⟩ = 0 := by
  constructor
  · unfold CRDTPeer.getCounterTotal
    rw [foldl_add_snd]
    simp
  · intro n; rfl

/-- C9: reading a counter key that was never set returns the default 0 (the
read is total, never an error); on a replica whose own key was never set,
the first increment stores 1 and the first decrement stores -1. -/
theorem counter_default_spec (p : CRDTPeer) (h : mapGet p.counters p.name = none) :
    (∀ k, mapGet p.counters k = none → p.counterValue k = 0) ∧
    mapGet p.incrementCounter.counters p.name = some 1 ∧
    mapGet p.decrementCounter.counters p.name = some (-1) := by
  refine ⟨fun k hk => ?_, ?_, ?_⟩
  · simp [CRDTPeer.counterValue, hk]
  · simp [CRDTPeer.incrementCounter, h, mapGet_mapSet_self]
  · simp [CRDTPeer.decrementCounter, h, mapGet_mapSet_self]

/-- Witness for C9 at a fresh replica named "A". -/
theorem counter_default_spec_witness :
    mapGet (CRDTPeer.incrementCounter ⟨"A", []⟩).counters "A" = some 1 ∧
    mapGet (CRDTPeer.decrementCounter ⟨"A", []⟩).counters "A" = some (-1) :=
  ⟨(counter_default_spec ⟨"A", []⟩ rfl).2.1,
   (counter_default_spec ⟨"A", []⟩ rfl).2.2⟩

/-- `setOnline` returns normally exactly when the flag-setting part found
the peer. -/
lemma callOk_setOnline (s : EngineState) (n : String) (b : Bool) :
    callOk (setOnline s n b) = (setFlag s n b).isSome := by
  unfold setOnline
  cases hf : setFlag s n b with
  | none => rfl
  | some s1 =>
    dsimp only
    split_ifs <;> rfl

/-- The flag-setting part finds exactly the two managed peer names. -/
lemma setFlag_isSome (s : EngineState) (n : String) (b : Bool) :
    (setFlag s n b).isSome = (decide (n = s.nameA) || decide (n = s.nameB)) := by
  unfold setFlag
  split_ifs <;> simp [*]

/-- C6: `setOnline` and `isPeerOnline` succeed exactly on the two managed
peer names and signal an error exactly on any other name. -/
theorem unknown_peer_spec (s : EngineState) (n : String) (b : Bool) :
    (callOk (setOnline s n b) = true ↔ (n = s.nameA ∨ n = s.nameB)) ∧
    (callOk (isPeerOnline s n) = true ↔ (n = s.nameA ∨ n = s.nameB)) := by
  constructor
  · rw [callOk_setOnline, setFlag_isSome]
    simp
  · unfold isPeerOnline
    split_ifs <;> simp [callOk, *]

/-- C10: `offSyncEvent` removes every registration of the observer, so no
later delivery reaches it, and removing a never-registered observer leaves
the engine unchanged. -/
theorem offSyncEvent_spec (s : EngineState) (cb : Nat) :
    (∀ l ∈ (offSyncEvent s cb).listeners, l ≠ cb) ∧
    (∀ evs : List SyncEvent, ∀ x ∈ deliver (offSyncEvent s cb).listeners evs,
      x.1 ≠ cb) ∧
    (cb ∉ s.listeners → offSyncEvent s cb = s) := by
  refine ⟨?_, ?_, ?_⟩
  · intro l hl
    simp [offSyncEvent, List.mem_filter] at hl
    exact hl.2
  · intro evs x hx
    simp [deliver, List.mem_flatMap, List.mem_map] at hx
    obtain ⟨e, _, id, hid, rfl⟩ := hx
    simp [offSyncEvent, List.mem_filter] at hid
    exact hid.2
  · intro hcb
    have hf : s.listeners.filter (fun l => l ≠ cb) = s.listeners :=
      List.filter_eq_self.mpr (fun a ha =>
        decide_eq_true (fun hh => hcb (hh ▸ ha)))
    unfold offSyncEvent
    rw [hf]

/-- Witness for C10: removing the never-registered observer 9 leaves an
engine with observers [5, 7, 5] unchanged. -/
theorem offSyncEvent_spec_witness :
    offSyncEvent ⟨"A", "B", ∅, ∅, true, true, [], [], [5, 7, 5], true, true⟩ 9 =
      ⟨"A", "B", ∅, ∅, true, true, [], [], [5, 7, 5], true, true⟩ :=
  (offSyncEvent_spec ⟨"A", "B", ∅, ∅, true, true, [], [], [5, 7, 5], true, true⟩ 9).2.2
    (by decide)

/-- An encoded update exceeds the empty-encoding threshold exactly when it
contains at least one operation. -/
lemma encodedSize_gt_iff (d : Doc) :
    encodedSize d > EMPTY_UPDATE_THRESHOLD ↔ d.Nonempty := by
  unfold encodedSize EMPTY_UPDATE_THRESHOLD
  constructor
  · intro h
    by_contra he
    rw [Finset.not_nonempty_iff_eq_empty] at he
    simp [he] at h
  · rintro ⟨x, hx⟩
    have hpos : 0 < d.sum (fun op => 1 + op.size) :=
      Finset.sum_pos' (fun i _ => Nat.zero_le _) ⟨x, hx, by omega⟩
    omega

/-- All fields of the state that reconciliation leaves untouched, and the
cleared queues. -/
lemma reconcile_fields (s : EngineState) :
    (reconcile s).1.nameA = s.nameA ∧ (reconcile s).1.nameB = s.nameB ∧
    (reconcile s).1.peerAOnline = s.peerAOnline ∧
    (reconcile s).1.peerBOnline = s.peerBOnline ∧
    (reconcile s).1.listeners = s.listeners ∧
    (reconcile s).1.subA = s.subA ∧ (reconcile s).1.subB = s.subB ∧
    (reconcile s).1.queueForA = [] ∧ (reconcile s).1.queueForB = [] := by
  unfold reconcile
  dsimp only
  split_ifs <;> simp [EngineState.applyRemote]

/-- An update at or below the threshold is empty, so its source holds no
operation its destination is missing. -/
lemma not_gt_subset {a b : Doc}
    (h : ¬ encodedSize (b \ a) > EMPTY_UPDATE_THRESHOLD) : b ⊆ a := by
  rw [encodedSize_gt_iff, Finset.nonempty_iff_ne_empty, ne_eq, not_not,
    Finset.sdiff_eq_empty_iff_subset] at h
  exact h

/-- Reconciliation brings the first document to the union of both. -/
lemma reconcile_docA (s : EngineState) :
    (reconcile s).1.docA = s.docA ∪ s.docB := by
  unfold reconcile
  dsimp only
  split_ifs with h1 h2 h2 <;>
    first
      | exact Finset.union_sdiff_self_eq_union
      | exact (Finset.union_eq_left.mpr (not_gt_subset h1)).symm
      | exact (Finset.union_eq_left.mpr (not_gt_subset h2)).symm

/-- Reconciliation brings the second document to the union of both. -/
lemma reconcile_docB (s : EngineState) :
    (reconcile s).1.docB = s.docB ∪ s.docA := by
  unfold reconcile
  dsimp only
  split_ifs with h1 h2 h2 <;>
    first
      | exact Finset.union_sdiff_self_eq_union
      | exact (Finset.union_eq_left.mpr (not_gt_subset h2)).symm
      | exact (Finset.union_eq_left.mpr (not_gt_subset h1)).symm

/-- C1: a local-change notification with the `remote` origin marker causes
no application, no queueing and no event; otherwise, when both slots are
online the delta is applied to the other replica and exactly one `live`
event is emitted, and when the link is not fully online the delta is
appended to the destination's queue, not applied, and exactly one `queued`
event is emitted. -/
theorem relay_on_local_change (s : EngineState) (src : Side) (update : Doc) :
    (handleUpdate s src update (some "remote") = (s, [])) ∧
    (∀ origin, origin ≠ some "remote" →
      (s.peerAOnline && s.peerBOnline) = true →
      (handleUpdate s src update origin).1.doc src.other =
        s.doc src.other ∪ update ∧
      (handleUpdate s src update origin).1.doc src = s.doc src ∧
      (handleUpdate s src update origin).1.queueForA = s.queueForA ∧
      (handleUpdate s src update origin).1.queueForB = s.queueForB ∧
      (handleUpdate s src update origin).2 =
        [⟨s.peerName src, s.peerName src.other, encodedSize update, .live⟩]) ∧
    (∀ origin, origin ≠ some "remote" →
      (s.peerAOnline && s.peerBOnline) = false →
      (handleUpdate s src update origin).1.docA = s.docA ∧
      (handleUpdate s src update origin).1.docB = s.docB ∧
      (handleUpdate s src update origin).1.queueFor src.other =
        s.queueFor src.other ++ [update] ∧
      (handleUpdate s src update origin).1.queueFor src = s.queueFor src ∧
      (handleUpdate s src update origin).2 =
        [⟨s.peerName src, s.peerName src.other, encodedSize update, .queued⟩]) := by
  refine ⟨by simp [handleUpdate], ?_, ?_⟩
  · intro origin ho hon
    cases src <;>
      simp [handleUpdate, relay, EngineState.applyRemote, Side.other,
        EngineState.doc, ho, hon]
  · intro origin ho hoff
    cases src <;>
      simp [handleUpdate, relay, EngineState.enqueue, Side.other,
        EngineState.queueFor, ho, hoff]

/-- Witness for C1: a local edit notification on a fresh engine relays the
delta live to the other peer. -/
theorem relay_on_local_change_witness :
    (handleUpdate (initState "A" "B") .A {(⟨1, 0, 3⟩ : Op)} none).2 =
      [⟨"A", "B", encodedSize {(⟨1, 0, 3⟩ : Op)}, .live⟩] :=
  ((relay_on_local_change (initState "A" "B") .A {⟨1, 0, 3⟩}).2.1 none
    (by simp) rfl).2.2.2.2

/-- C3: during reconciliation, for each direction independently, the delta
computed from the destination's state vector is applied to the destination
and one `reconnect` event carrying its byte size is addressed to that
destination if and only if its encoded size exceeds the empty-encoding
threshold; a trivial delta is neither applied nor reported by any event. -/
theorem reconcile_spec (s : EngineState) (hne : s.nameA ≠ s.nameB) :
    (encodedSize (s.docB \ s.docA) > EMPTY_UPDATE_THRESHOLD →
      (reconcile s).1.docA = s.docA ∪ (s.docB \ s.docA) ∧
      (reconcile s).2.filter (fun e => e.dst = s.nameA) =
        [⟨s.nameB, s.nameA, encodedSize (s.docB \ s.docA), .reconnect⟩]) ∧
    (¬ encodedSize (s.docB \ s.docA) > EMPTY_UPDATE_THRESHOLD →
      (reconcile s).1.docA = s.docA ∧
      (reconcile s).2.filter (fun e => e.dst = s.nameA) = []) ∧
    (encodedSize (s.docA \ s.docB) > EMPTY_UPDATE_THRESHOLD →
      (reconcile s).1.docB = s.docB ∪ (s.docA \ s.docB) ∧
      (reconcile s).2.filter (fun e => e.dst = s.nameB) =
        [⟨s.nameA, s.nameB, encodedSize (s.docA \ s.docB), .reconnect⟩]) ∧
    (¬ encodedSize (s.docA \ s.docB) > EMPTY_UPDATE_THRESHOLD →
      (reconcile s).1.docB = s.docB ∧
      (reconcile s).2.filter (fun e => e.dst = s.nameB) = []) := by
  unfold reconcile
  dsimp only
  by_cases hA : encodedSize (s.docB \ s.docA) > EMPTY_UPDATE_THRESHOLD <;>
    by_cases hB : encodedSize (s.docA \ s.docB) > EMPTY_UPDATE_THRESHOLD <;>
    simp [hA, hB, EngineState.applyRemote, List.filter, hne, Ne.symm hne]

/-- Witness for C3: reconciling an engine where only B holds an operation
applies exactly that delta to A, and neither applies nor reports anything
in the other direction. -/
theorem reconcile_spec_witness :
    (reconcile divergedPair).1.docA =
      divergedPair.docA ∪ (divergedPair.docB \ divergedPair.docA) ∧
    (reconcile divergedPair).1.docB = divergedPair.docB :=
  ⟨((reconcile_spec divergedPair (by decide)).1
      (by simp [divergedPair, encodedSize, EMPTY_UPDATE_THRESHOLD])).1,
   ((reconcile_spec divergedPair (by decide)).2.2.2
      (by simp [divergedPair, encodedSize, EMPTY_UPDATE_THRESHOLD])).1⟩

/-- C2 counterexample: on a fresh engine both slots are already Online, yet
a redundant `setOnline("A", true)` call invokes reconciliation — the claim
that a call setting an already-online slot to Online never triggers
reconciliation fails on the code. -/
theorem setOnline_redundant_reconciles :
    (initState "A" "B").peerAOnline = true ∧
    (initState "A" "B").peerBOnline = true ∧
    ranReconcile (setOnline (initState "A" "B") "A" true) = true :=
  ⟨rfl, rfl, by decide⟩

/-- C2 corrected: a successful `setOnline` call invokes reconciliation
exactly when the requested value is online and both slots are online after
the call — so an Offline→Online flip with the other slot online triggers
it, but so does a redundant Online→Online call while the other slot is
online; when reconciliation is not invoked, the call only sets the flag
and emits no event. -/
theorem setOnline_reconcile_condition (s : EngineState) (n : String) (b : Bool)
    (s' : EngineState) (evs : List SyncEvent) (ran : Bool)
    (h : setOnline s n b = .ok (s', evs, ran)) :
    (ran = true ↔ (b = true ∧ s'.peerAOnline = true ∧ s'.peerBOnline = true)) ∧
    (ran = false → evs = [] ∧
      s' = { s with peerAOnline := s'.peerAOnline,
                    peerBOnline := s'.peerBOnline }) := by
  unfold setOnline at h
  cases hf : setFlag s n b with
  | none =>
    rw [hf] at h
    exact absurd h (by simp)
  | some s1 =>
    rw [hf] at h
    dsimp only at h
    by_cases hc : (b && s1.peerAOnline && s1.peerBOnline) = true
    · rw [if_pos hc] at h
      have hs' : s' = (reconcile s1).1 := by
        injection h with h'
        exact (congrArg Prod.fst h').symm
      have hran : ran = true := by
        injection h with h'
        exact (congrArg (fun p => p.2.2) h').symm
      obtain ⟨hb, hA1, hB1⟩ :
          b = true ∧ s1.peerAOnline = true ∧ s1.peerBOnline = true := by
        simpa [Bool.and_eq_true, and_assoc] using hc
      have hfields := reconcile_fields s1
      refine ⟨⟨fun _ => ⟨hb, ?_, ?_⟩, fun _ => hran⟩, fun hr => ?_⟩
      · rw [hs', hfields.2.2.1, hA1]
      · rw [hs', hfields.2.2.2.1, hB1]
      · rw [hran] at hr
        exact absurd hr (by simp)
    · rw [if_neg hc] at h
      have hs' : s' = s1 := by
        injection h with h'
        exact (congrArg Prod.fst h').symm
      have hevs : evs = [] := by
        injection h with h'
        exact (congrArg (fun p => p.2.1) h').symm
      have hran : ran = false := by
        injection h with h'
        exact (congrArg (fun p => p.2.2) h').symm
      refine ⟨⟨fun hr => absurd hr (by simp [hran]), fun hrhs => ?_⟩,
        fun _ => ⟨hevs, ?_⟩⟩
      · exfalso
        apply hc
        rw [hs'] at hrhs
        simp [Bool.and_eq_true, hrhs.1, hrhs.2.1, hrhs.2.2]
      · unfold setFlag at hf
        split_ifs at hf with hn1 hn2
        · injection hf with hf1
          rw [hs', ← hf1]
        · injection hf with hf1
          rw [hs', ← hf1]

/-- Witness for the corrected C2 at a concrete call: pausing slot A of a
fresh pair sets only the flag, emits nothing, and does not reconcile. -/
theorem setOnline_reconcile_condition_witness :
    (false = true ↔ (false = true ∧ pausedPair.peerAOnline = true ∧
      pausedPair.peerBOnline = true)) ∧
    (false = false → ([] : List SyncEvent) = [] ∧
      pausedPair = { initState "A" "B" with
                       peerAOnline := pausedPair.peerAOnline,
                       peerBOnline := pausedPair.peerBOnline }) :=
  setOnline_reconcile_condition (initState "A" "B") "A" false pausedPair [] false
    rfl

/-- Delivering to an empty observer list delivers nothing. -/
lemma deliver_nil (evs : List SyncEvent) : deliver [] evs = [] := by
  simp [deliver]

/-- A local edit never changes the observer list. -/
lemma localEdit_listeners (s : EngineState) (side : Side) (op : Op) :
    (localEdit s side op).1.listeners = s.listeners := by
  cases side <;>
    simp only [localEdit, handleUpdate, relay, EngineState.applyRemote,
      EngineState.enqueue, Side.other] <;>
    split_ifs <;> rfl

/-- A successful `setOnline` call never changes the observer list. -/
lemma setOnline_ok_listeners (s : EngineState) (n : String) (b : Bool)
    (s' : EngineState) (evs : List SyncEvent) (ran : Bool)
    (h : setOnline s n b = .ok (s', evs, ran)) :
    s'.listeners = s.listeners := by
  unfold setOnline at h
  cases hf : setFlag s n b with
  | none =>
    rw [hf] at h
    exact absurd h (by simp)
  | some s1 =>
    have hs1 : s1.listeners = s.listeners := by
      unfold setFlag at hf
      split_ifs at hf <;> injection hf with hf1 <;> rw [← hf1]
    rw [hf] at h
    dsimp only at h
    split_ifs at h with hc
    · injection h with h'
      injection h' with h1 hrest
      rw [← h1, (reconcile_fields s1).2.2.2.2.1, hs1]
    · injection h with h'
      injection h' with h1 hrest
      rw [← h1, hs1]

/-- A command that is not an observer registration keeps an empty observer
list empty and delivers nothing to observers. -/
lemma step_keeps_no_listeners (s : EngineState) (c : Cmd)
    (hl : s.listeners = []) (hc : isSubscribeCmd c = false) :
    (step s c).1.listeners = [] ∧ (step s c).2 = [] := by
  cases c with
  | edit side op =>
    refine ⟨?_, ?_⟩
    · rw [show (step s (.edit side op)).1 = (localEdit s side op).1 from rfl,
        localEdit_listeners, hl]
    · rw [show (step s (.edit side op)).2 =
        deliver s.listeners (localEdit s side op).2 from rfl, hl, deliver_nil]
  | online n b =>
    cases hso : setOnline s n b with
    | ok r =>
      obtain ⟨s', evs, ran⟩ := r
      refine ⟨?_, ?_⟩
      · rw [show (step s (.online n b)).1 = s' from by rw [step, hso]]
        rw [setOnline_ok_listeners s n b s' evs ran hso, hl]
      · rw [show (step s (.online n b)).2 = deliver s.listeners evs from by
          rw [step, hso]]
        rw [hl, deliver_nil]
    | error e =>
      constructor
      · rw [show (step s (.online n b)).1 = s from by rw [step, hso], hl]
      · rw [show (step s (.online n b)).2 = [] from by rw [step, hso]]
  | subscribeEvt id => exact absurd hc (by simp [isSubscribeCmd])
  | unsubscribeEvt id =>
    constructor
    · rw [show (step s (.unsubscribeEvt id)).1 = offSyncEvent s id from rfl]
      simp [offSyncEvent, hl]
    · rfl
  | teardown => exact ⟨rfl, rfl⟩

/-- Running any list of non-registration commands from a state with no
observers delivers nothing and leaves no observers. -/
lemma runD_keeps_no_listeners :
    ∀ (cs : List Cmd) (s : EngineState), s.listeners = [] →
      (∀ c ∈ cs, isSubscribeCmd c = false) →
      (runD s cs).1.listeners = [] ∧ (runD s cs).2 = [] := by
  intro cs
  induction cs with
  | nil => intro s hl _; exact ⟨hl, rfl⟩
  | cons c cs ih =>
    intro s hl hcs
    have hstep := step_keeps_no_listeners s c hl (hcs c (by simp))
    have hrest := ih (step s c).1 hstep.1 (fun c' hc' => hcs c' (by simp [hc']))
    refine ⟨?_, ?_⟩
    · rw [show (runD s (c :: cs)).1 = (runD (step s c).1 cs).1 from rfl]
      exact hrest.1
    · rw [show (runD s (c :: cs)).2 = (step s c).2 ++ (runD (step s c).1 cs).2
        from rfl, hstep.2, hrest.2]
      rfl

/-- C7: `destroy` is idempotent (and total, so a second call cannot throw),
removes the engine's subscriptions on both replicas' change notifications,
clears the observer list, and after it no sync event is delivered to any
previously registered observer under any further commands that do not
register new observers. -/
theorem destroy_spec (s : EngineState) :
    destroy (destroy s) = destroy s ∧
    (destroy s).subA = false ∧ (destroy s).subB = false ∧
    (destroy s).listeners = [] ∧
    (∀ cs : List Cmd, (∀ c ∈ cs, isSubscribeCmd c = false) →
      (runD (destroy s) cs).2 = []) := by
  refine ⟨rfl, rfl, rfl, rfl, fun cs hcs => ?_⟩
  exact (runD_keeps_no_listeners cs (destroy s) rfl hcs).2

/-- Witness for C7: after destroying a fresh engine, an edit, a pause, an
observer removal and a second destroy deliver no event at all. -/
theorem destroy_spec_witness :
    (runD (destroy (initState "A" "B"))
      [Cmd.edit .A ⟨1, 0, 3⟩, Cmd.online "A" false,
       Cmd.unsubscribeEvt 3, Cmd.teardown]).2 = [] :=
  (destroy_spec (initState "A" "B")).2.2.2.2
    [Cmd.edit .A ⟨1, 0, 3⟩, Cmd.online "A" false,
     Cmd.unsubscribeEvt 3, Cmd.teardown] (by decide)

/-- C4 counterexample: pause slot A of a fresh pair, then edit replica A.
The delta is queued for B although B's slot is online — a queue addressed
to an online destination is non-empty. -/
theorem queue_to_online_dest :
    (run (initState "A" "B")
      [Cmd.online "A" false, Cmd.edit .A ⟨1, 0, 3⟩]).queueForB =
      [({⟨1, 0, 3⟩} : Doc)] ∧
    (run (initState "A" "B")
      [Cmd.online "A" false, Cmd.edit .A ⟨1, 0, 3⟩]).peerBOnline = true :=
  ⟨rfl, rfl⟩

/-- A local edit never changes the online flags. -/
lemma localEdit_flags (s : EngineState) (side : Side) (op : Op) :
    (localEdit s side op).1.peerAOnline = s.peerAOnline ∧
    (localEdit s side op).1.peerBOnline = s.peerBOnline := by
  cases side <;>
    simp only [localEdit, handleUpdate, relay, EngineState.applyRemote,
      EngineState.enqueue, Side.other] <;>
    split_ifs <;> exact ⟨rfl, rfl⟩

/-- While the link is fully online a local edit is relayed live and leaves
both queues unchanged. -/
lemma localEdit_queues_online (s : EngineState) (side : Side) (op : Op)
    (h : (s.peerAOnline && s.peerBOnline) = true) :
    (localEdit s side op).1.queueForA = s.queueForA ∧
    (localEdit s side op).1.queueForB = s.queueForB := by
  cases side <;>
    simp [localEdit, handleUpdate, relay, EngineState.applyRemote,
      Side.other, h] <;>
    split_ifs <;> exact ⟨rfl, rfl⟩

/-- Every command preserves the invariant that both queues are empty
whenever both slots are online. -/
lemma step_preserves_queues_empty (s : EngineState) (c : Cmd)
    (hP : (s.peerAOnline && s.peerBOnline) = true →
      s.queueForA = [] ∧ s.queueForB = [])
    (hon : ((step s c).1.peerAOnline && (step s c).1.peerBOnline) = true) :
    (step s c).1.queueForA = [] ∧ (step s c).1.queueForB = [] := by
  cases c with
  | edit side op =>
    have hside : (step s (.edit side op)).1 = (localEdit s side op).1 := rfl
    rw [hside] at hon ⊢
    have hfl := localEdit_flags s side op
    rw [hfl.1, hfl.2] at hon
    have hq := localEdit_queues_online s side op hon
    rw [hq.1, hq.2]
    exact hP hon
  | online n b =>
    cases hso : setOnline s n b with
    | ok r =>
      obtain ⟨s', evs, ran⟩ := r
      have hs : (step s (.online n b)).1 = s' := by rw [step, hso]
      rw [hs] at hon ⊢
      unfold setOnline at hso
      cases hf : setFlag s n b with
      | none =>
        rw [hf] at hso
        exact absurd hso (by simp)
      | some s1 =>
        rw [hf] at hso
        dsimp only at hso
        split_ifs at hso with hc
        · injection hso with h'
          injection h' with h1 hrest
          rw [← h1, (reconcile_fields s1).2.2.2.2.2.2.2.1,
            (reconcile_fields s1).2.2.2.2.2.2.2.2]
          exact ⟨rfl, rfl⟩
        · injection hso with h'
          injection h' with h1 hrest
          rw [← h1] at hon
          exfalso
          unfold setFlag at hf
          split_ifs at hf with hn1 hn2
          · injection hf with hf1
            apply hc
            rw [← hf1] at hon ⊢
            simp only [Bool.and_eq_true] at hon ⊢
            exact ⟨⟨hon.1, hon.1.symm ▸ hon.1⟩, hon.2⟩
          · injection hf with hf1
            apply hc
            rw [← hf1] at hon ⊢
            simp only [Bool.and_eq_true] at hon ⊢
            exact ⟨⟨hon.2, hon.1⟩, hon.2⟩
    | error e =>
      have hs : (step s (.online n b)).1 = s := by rw [step, hso]
      rw [hs] at hon ⊢
      exact hP hon
  | subscribeEvt id => exact hP hon
  | unsubscribeEvt id => exact hP hon
  | teardown => exact hP hon

/-- C4 corrected: in every engine state reachable from a fresh pair, as
soon as both slots are online both direction queues are empty; a queue can
therefore be non-empty only while the link is not fully online (some slot
offline — not necessarily the destination's own slot, which is what the
original claim asserted and the counterexample refutes). -/
theorem queues_empty_when_both_online (nA nB : String) (cs : List Cmd)
    (hon : ((run (initState nA nB) cs).peerAOnline &&
      (run (initState nA nB) cs).peerBOnline) = true) :
    (run (initState nA nB) cs).queueForA = [] ∧
    (run (initState nA nB) cs).queueForB = [] := by
  suffices h : ∀ (cs : List Cmd) (s : EngineState),
      ((s.peerAOnline && s.peerBOnline) = true →
        s.queueForA = [] ∧ s.queueForB = []) →
      ((run s cs).peerAOnline && (run s cs).peerBOnline) = true →
      (run s cs).queueForA = [] ∧ (run s cs).queueForB = [] by
    exact h cs (initState nA nB) (fun _ => ⟨rfl, rfl⟩) hon
  intro cs
  induction cs with
  | nil => intro s hP hon2; exact hP hon2
  | cons c cs ih =>
    intro s hP hon2
    have hrun : run s (c :: cs) = run (step s c).1 cs := rfl
    rw [hrun] at hon2 ⊢
    exact ih (step s c).1 (step_preserves_queues_empty s c hP) hon2

/-- Witness for the corrected C4: pause A, edit A (queueing a delta for B),
then resume A — after the reconnect both queues are empty. -/
theorem queues_empty_when_both_online_witness :
    (run (initState "A" "B")
      [Cmd.online "A" false, Cmd.edit .A ⟨1, 0, 3⟩,
       Cmd.online "A" true]).queueForA = [] ∧
    (run (initState "A" "B")
      [Cmd.online "A" false, Cmd.edit .A ⟨1, 0, 3⟩,
       Cmd.online "A" true]).queueForB = [] :=
  queues_empty_when_both_online "A" "B"
    [Cmd.online "A" false, Cmd.edit .A ⟨1, 0, 3⟩, Cmd.online "A" true]
    (by decide)

/-- Running a concatenation runs the second list from the first's final
state. -/
lemma run_append (cs1 cs2 : List Cmd) :
    ∀ s : EngineState, run s (cs1 ++ cs2) = run (run s cs1) cs2 := by
  induction cs1 with
  | nil => intro s; rfl
  | cons c cs ih => intro s; exact ih (step s c).1

/-- While both slots are online, a sequence of local edits on B is relayed
live: both documents end up extended by exactly the edited operations. -/
lemma run_editsB_online (ops : List Op) :
    ∀ s : EngineState, s.peerAOnline = true → s.peerBOnline = true →
      s.subB = true →
      (run s (ops.map (Cmd.edit .B))).docA = s.docA ∪ ops.toFinset ∧
      (run s (ops.map (Cmd.edit .B))).docB = s.docB ∪ ops.toFinset := by
  induction ops with
  | nil => intro s _ _ _; constructor <;> simp [run, runD]
  | cons op rest ih =>
    intro s hA hB hsB
    have hstate : (step s (Cmd.edit .B op)).1 =
        { s with docA := s.docA ∪ {op}, docB := s.docB ∪ {op} } := by
      simp [step, localEdit, handleUpdate, relay, EngineState.applyRemote,
        Side.other, hsB, hA, hB]
    have hrun : run s ((op :: rest).map (Cmd.edit .B)) =
        run (step s (Cmd.edit .B op)).1 (rest.map (Cmd.edit .B)) := rfl
    rw [hrun, hstate]
    obtain ⟨ihA, ihB⟩ :=
      ih { s with docA := s.docA ∪ {op}, docB := s.docB ∪ {op} } hA hB hsB
    rw [ihA, ihB]
    constructor <;>
      · dsimp only
        rw [Finset.union_assoc, ← Finset.insert_eq, ← List.toFinset_cons]

/-- While slot A is offline and B online, a sequence of local edits on B
only grows B's document (and A's queue); A's document, the flags and the
names are untouched. -/
lemma run_editsB_offlineA (ops : List Op) :
    ∀ s : EngineState, s.peerAOnline = false → s.peerBOnline = true →
      s.subB = true →
      (run s (ops.map (Cmd.edit .B))).docA = s.docA ∧
      (run s (ops.map (Cmd.edit .B))).docB = s.docB ∪ ops.toFinset ∧
      (run s (ops.map (Cmd.edit .B))).peerAOnline = false ∧
      (run s (ops.map (Cmd.edit .B))).peerBOnline = true ∧
      (run s (ops.map (Cmd.edit .B))).nameA = s.nameA ∧
      (run s (ops.map (Cmd.edit .B))).nameB = s.nameB := by
  induction ops with
  | nil =>
    intro s h1 h2 _
    exact ⟨rfl, by simp [run, runD], h1, h2, rfl, rfl⟩
  | cons op rest ih =>
    intro s hA hB hsB
    have hstate : (step s (Cmd.edit .B op)).1 =
        { s with docB := s.docB ∪ {op},
                 queueForA := s.queueForA ++ [{op}] } := by
      simp [step, localEdit, handleUpdate, relay, EngineState.enqueue,
        Side.other, hsB, hA]
    have hrun : run s ((op :: rest).map (Cmd.edit .B)) =
        run (step s (Cmd.edit .B op)).1 (rest.map (Cmd.edit .B)) := rfl
    rw [hrun, hstate]
    obtain ⟨ih1, ih2, ih3, ih4, ih5, ih6⟩ :=
      ih { s with docB := s.docB ∪ {op}, queueForA := s.queueForA ++ [{op}] }
        hA hB hsB
    refine ⟨ih1, ?_, ih3, ih4, ih5, ih6⟩
    rw [ih2]
    dsimp only
    rw [Finset.union_assoc, ← Finset.insert_eq, ← List.toFinset_cons]

/-- C5: starting from a synced fully-online pair, pausing slot A, applying
any sequence of local edits on B and resuming slot A leaves A's document in
exactly the state it reaches when the same edits run with both peers online
throughout (content equality; the runs' events are not compared). -/
theorem offline_reconcile_equivalence (s : EngineState) (ops : List Op)
    (hA : s.peerAOnline = true) (hB : s.peerBOnline = true)
    (hsB : s.subB = true) (heq : s.docA = s.docB) :
    (run s ([Cmd.online s.nameA false] ++ ops.map (Cmd.edit .B) ++
      [Cmd.online s.nameA true])).docA =
    (run s (ops.map (Cmd.edit .B))).docA := by
  obtain ⟨hRA, hRB⟩ := run_editsB_online ops s hA hB hsB
  rw [hRA]
  have hsplit : [Cmd.online s.nameA false] ++ ops.map (Cmd.edit .B) ++
      [Cmd.online s.nameA true] =
      Cmd.online s.nameA false ::
        (ops.map (Cmd.edit .B) ++ [Cmd.online s.nameA true]) := by simp
  rw [hsplit]
  have h0 : (step s (Cmd.online s.nameA false)).1 =
      { s with peerAOnline := false } := by
    simp [step, setOnline, setFlag]
  have h1 : run s (Cmd.online s.nameA false ::
      (ops.map (Cmd.edit .B) ++ [Cmd.online s.nameA true])) =
      run { s with peerAOnline := false }
        (ops.map (Cmd.edit .B) ++ [Cmd.online s.nameA true]) := by
    rw [show run s (Cmd.online s.nameA false ::
        (ops.map (Cmd.edit .B) ++ [Cmd.online s.nameA true])) =
      run (step s (Cmd.online s.nameA false)).1
        (ops.map (Cmd.edit .B) ++ [Cmd.online s.nameA true]) from rfl, h0]
  rw [h1, run_append]
  obtain ⟨hMA, hMB, hMfA, hMfB, hMnA, hMnB⟩ :=
    run_editsB_offlineA ops { s with peerAOnline := false } rfl hB hsB
  dsimp only at hMA hMB hMnA hMnB
  set sMid := run { s with peerAOnline := false } (ops.map (Cmd.edit .B))
    with hsMid
  have h3 : setOnline sMid s.nameA true =
      .ok ((reconcile { sMid with peerAOnline := true }).1,
        (reconcile { sMid with peerAOnline := true }).2, true) := by
    unfold setOnline setFlag
    rw [hMnA]
    simp [hMfB]
  have h4 : run sMid [Cmd.online s.nameA true] =
      (reconcile { sMid with peerAOnline := true }).1 := by
    rw [show run sMid [Cmd.online s.nameA true] =
      (step sMid (Cmd.online s.nameA true)).1 from rfl]
    simp [step, h3]
  rw [h4, reconcile_docA]
  dsimp only
  rw [hMA, hMB, heq, ← Finset.union_assoc, Finset.union_self]

/-- Witness for C5 on a fresh pair and two concrete edits. -/
theorem offline_reconcile_equivalence_witness :
    (run (initState "A" "B")
      ([Cmd.online (initState "A" "B").nameA false] ++
        ([⟨1, 0, 3⟩, ⟨2, 0, 2⟩] : List Op).map (Cmd.edit .B) ++
        [Cmd.online (initState "A" "B").nameA true])).docA =
    (run (initState "A" "B")
      (([⟨1, 0, 3⟩, ⟨2, 0, 2⟩] : List Op).map (Cmd.edit .B))).docA :=
  offline_reconcile_equivalence (initState "A" "B") [⟨1, 0, 3⟩, ⟨2, 0, 2⟩]
    rfl rfl rfl rfl
